import Mathlib

/-!
Verification development for the mp4_to_wav repository.

We give a shallow embedding of the conversion core
(src/converter/core.py and src/converter/utils.py) and prove the
behavioural claims about it.  File-system facts (existence of files,
sizes, success of directory creation, whether the media library can
open a clip, whether the clip has an audio track, whether the encoder
call raises) are modelled as an explicit environment record; the
functions below mirror the Python control flow over that environment.
Progress callbacks and the logger are modelled as synchronous event
emissions collected in a trace; per the external progress-sink
contract they do not raise.  Python strings are modelled as Lean
strings with codepoint-lexicographic order (matching Python string
comparison); str.lower is modelled as ASCII lowering, which agrees
with Python on all inputs relevant to the extension set.
-/

namespace Mp4ToWav

/-- ASCII lowercase of one character, modelling str.lower on the
ASCII range (the supported-extension comparisons only involve ASCII). -/
def asciiLowerChar (c : Char) : Char :=
  if c.toNat ≥ 65 ∧ c.toNat ≤ 90 then Char.ofNat (c.toNat + 32) else c

/-- ASCII lowercase of a string. -/
def asciiLower (s : String) : String :=
  String.mk (s.data.map asciiLowerChar)

/-- Index of the last occurrence of a character in a character list. -/
def rfindChar (c : Char) (l : List Char) : Option Nat :=
  match l.reverse.findIdx? (fun x => x == c) with
  | none => none
  | some j => some (l.length - 1 - j)

/-- Split a character list on the path separator. -/
def splitSlash : List Char → List (List Char)
  | [] => [[]]
  | c :: rest =>
    match splitSlash rest with
    | [] => [[]]
    | h :: t => if c = '/' then [] :: h :: t else (c :: h) :: t

/-- Whether a string starts with the path separator. -/
def headIsSlash (s : String) : Bool :=
  match s.data with
  | [] => false
  | c :: _ => c == '/'

/-- Whether a string ends with the path separator. -/
def lastIsSlash (s : String) : Bool :=
  s.data.getLast? == some '/'

/-- Join strings with the path separator between them. -/
def joinSlash : List String → String
  | [] => ""
  | [p] => p
  | p :: q :: ps => p ++ "/" ++ joinSlash (q :: ps)

/-- Components of a POSIX path as pathlib stores them: split on the
separator, dropping empty components and single dots. -/
def pathParts (s : String) : List String :=
  ((splitSlash s.data).map String.mk).filter (fun p => p != "" && p != ".")

/-- Final path component, as pathlib Path(s).name. -/
def pathName (s : String) : String :=
  (pathParts s).getLastD ""

/-- Extension of the final component including the dot, as pathlib
Path(s).suffix: the part of the name from its last dot, provided that
dot is neither the first nor the last character of the name. -/
def pathSuffix (s : String) : String :=
  let n := (pathName s).data
  match rfindChar '.' n with
  | none => ""
  | some i => if 0 < i ∧ i < n.length - 1 then String.mk (n.drop i) else ""

/-- Final component without its extension, as pathlib Path(s).stem. -/
def pathStem (s : String) : String :=
  let n := (pathName s).data
  match rfindChar '.' n with
  | none => String.mk n
  | some i => if 0 < i ∧ i < n.length - 1 then String.mk (n.take i) else String.mk n

/-- String form of pathlib Path(s).parent. -/
def pathParent (s : String) : String :=
  let ps := (pathParts s).dropLast
  if headIsSlash s then
    if ps = [] then "/" else "/" ++ joinSlash ps
  else
    if ps = [] then "." else joinSlash ps

/-- os.path.join for two POSIX components. -/
def osJoin (a b : String) : String :=
  if headIsSlash b then b
  else if a = "" ∨ lastIsSlash a then a ++ b
  else a ++ "/" ++ b

/-- os.path.dirname: everything up to the last separator, with
trailing separators stripped unless the head is all separators. -/
def osDirname (p : String) : String :=
  match rfindChar '/' p.data with
  | none => ""
  | some i =>
    let head := p.data.take (i + 1)
    if head.all (fun c => c == '/') then String.mk head
    else String.mk ((head.reverse.dropWhile (fun c => c == '/')).reverse)

/-- Length of the longest common leading run of two lists. -/
def commonLen : List String → List String → Nat
  | a :: as, b :: bs => if a = b then commonLen as bs + 1 else 0
  | _, _ => 0

/-- os.path.relpath for dot-free paths resolved against the same
working directory: drop the common leading components and climb out
of what remains of the start. -/
def osRelpath (path start : String) : String :=
  let p := pathParts path
  let s := pathParts start
  let k := commonLen p s
  let rel := List.replicate (s.length - k) ".." ++ p.drop k
  if rel = [] then "." else joinSlash rel

/-- The supported video extension set from utils.SUPPORTED_VIDEO_FORMATS. -/
def SUPPORTED_VIDEO_FORMATS : List String :=
  [".mp4", ".avi", ".mov", ".mkv", ".flv", ".wmv", ".m4v", ".3gp"]

/-- utils.validate_file_extension with the default format set: the
lowercased suffix of the path is a member of the supported set. -/
def validate_file_extension (file_path : String) : Bool :=
  SUPPORTED_VIDEO_FORMATS.contains (asciiLower (pathSuffix file_path))

/-- Lexicographic order on strings by character codepoints, stated on
the underlying character lists so that it evaluates in the kernel; it
coincides with the standard order on String. -/
def pathLe (a b : String) : Prop :=
  a.data ≤ b.data

instance : DecidableRel pathLe := fun a b => by unfold pathLe; infer_instance

/-- utils.get_video_files_from_directory.  The directory walk is
modelled by the flag saying whether the directory exists and the list
of all file paths under it in walk order; the function keeps the
paths with a supported extension and sorts them. -/
def get_video_files_from_directory (dirExists : Bool) (tree : List String) : List String :=
  if dirExists then List.insertionSort pathLe (tree.filter validate_file_extension)
  else []

/-- Python values that can appear in an audio-parameter dictionary. -/
inductive Val where
  | vint : Int → Val
  | vstr : String → Val
  | vlist : List String → Val
  | vnone : Val
deriving DecidableEq, Repr

/-- A Python dict, modelled as an insertion-ordered association list
with unique keys. -/
abbrev Dict := List (String × Val)

/-- Dictionary lookup by key. -/
def dictLookup (d : Dict) (k : String) : Option Val :=
  List.lookup k d

/-- Python in-operator on a dict. -/
def dictHasKey (d : Dict) (k : String) : Bool :=
  (dictLookup d k).isSome

/-- Python d[k] = v: replace the value in place when the key exists,
append the pair otherwise. -/
def dictSet (d : Dict) (k : String) (v : Val) : Dict :=
  if dictHasKey d k then d.map (fun kv => if kv.1 = k then (k, v) else kv)
  else d ++ [(k, v)]

/-- Python d.update(u): set every pair of u in order. -/
def dictUpdate (d u : Dict) : Dict :=
  u.foldl (fun acc kv => dictSet acc kv.1 kv.2) d

/-- The write_audiofile keyword whitelist from core.py line 161. -/
def supported_params : List String :=
  ["codec", "fps", "bitrate", "nbytes", "buffersize", "ffmpeg_params", "write_logfile"]

/-- list.extend on the ffmpeg_params entry; raises (error) when the
stored value is not a list, as Python would. -/
def extendFfmpegParams (d : Dict) (args : List String) : Except Unit Dict :=
  match dictLookup d "ffmpeg_params" with
  | some (Val.vlist l) => Except.ok (dictSet d "ffmpeg_params" (Val.vlist (l ++ args)))
  | _ => Except.error ()

/-- The effective keyword set passed to write_audiofile: core.py
lines 153 to 185.  Defaults are codec pcm_s16le and logger None; a
truthy caller dict is filtered to the whitelist and merged over the
defaults; a channels entry equal to 1 or 2 appends a channel-remap
instruction to ffmpeg_params (creating it empty first when absent);
finally logger is None with a callback and the builtin bar without. -/
def write_params (audio_params : Option Dict) (hasCallback : Bool) : Except Unit Dict :=
  let default0 : Dict := [("codec", Val.vstr "pcm_s16le"), ("logger", Val.vnone)]
  let merged : Except Unit Dict :=
    match audio_params with
    | none => Except.ok default0
    | some ap =>
      if ap = [] then Except.ok default0
      else
        let filtered := ap.filter (fun kv => supported_params.contains kv.1)
        let d1 := dictUpdate default0 filtered
        if dictHasKey ap "channels" then
          let d2 := if dictHasKey d1 "ffmpeg_params" then d1
                    else d1 ++ [("ffmpeg_params", Val.vlist [])]
          match dictLookup ap "channels" with
          | some (Val.vint 1) => extendFfmpegParams d2 ["-ac", "1"]
          | some (Val.vint 2) => extendFfmpegParams d2 ["-ac", "2"]
          | _ => Except.ok d2
        else Except.ok d1
  match merged with
  | Except.error e => Except.error e
  | Except.ok d =>
    if hasCallback then Except.ok (dictSet d "logger" Val.vnone)
    else Except.ok (dictSet d "logger" (Val.vstr "bar"))

/-- Observable actions of one converter run: log lines (tagged by the
distinct condition they report), handle open and close, the
write_audiofile invocation with its destination and keyword set, the
per-file progress callback and the batch progress callback. -/
inductive Event where
  | logInfoStart : String → String → Event
  | warnOverwrite : String → Event
  | errNotFound : String → Event
  | errUnsupportedFormat : String → Event
  | errOutputDir : String → Event
  | errNoAudio : String → Event
  | errException : String → Event
  | errBadOutput : String → Event
  | logInfoDone : String → Event
  | openClip : String → Event
  | closeClip : Event
  | transcode : String → Dict → Event
  | progress : String → Nat → Nat → Event
  | batchProgress : String → Nat → Nat → Event
deriving DecidableEq, Repr

/-- Environment of one convert_single_file call: the file-system and
media-library facts the code branches on.  openOk false means the
VideoFileClip constructor raises; writeOk false means write_audiofile
raises (also how a stop request aborts the in-flight encode, since
closing the handle makes the encoder call fail); outAfterExists and
outAfterSize describe the destination file when the verification step
runs. -/
structure MediaEnv where
  inputExists : Bool
  createDirOk : Bool
  outputPreexists : Bool
  openOk : Bool
  hasAudio : Bool
  duration : Option Nat
  writeOk : Bool
  outAfterExists : Bool
  outAfterSize : Nat
deriving DecidableEq, Repr

/-- The Python expression (clip.duration if clip.duration else 0). -/
def durationOrZero (d : Option Nat) : Nat :=
  match d with
  | some v => if v ≠ 0 then v else 0
  | none => 0

/-- Result of one convert_single_file call: the returned flag, the
emitted events in order, and whether current_clip still holds a
handle afterwards. -/
structure SingleOutcome where
  ok : Bool
  trace : List Event
  clip : Bool
deriving DecidableEq, Repr

/-- core.validate_input_file: existence, then extension. -/
def validate_input_file (env : MediaEnv) (input_path : String) : Bool :=
  env.inputExists && validate_file_extension input_path

/-- core.generate_output_path: stem of the input plus a dot and the
format, under the given directory when that is truthy, next to the
input otherwise.  (With a truthy directory the code also creates it;
directory creation is a side effect modelled by MediaEnv.createDirOk
at the call site.) -/
def generate_output_path (input_path : String) (output_dir : Option String)
    (output_format : String) : String :=
  let output_filename := pathStem input_path ++ "." ++ output_format
  match output_dir with
  | some d =>
    if d ≠ "" then osJoin d output_filename
    else osJoin (pathParent input_path) output_filename
  | none => osJoin (pathParent input_path) output_filename

/-- The output path used by convert_single_file: the caller-given one
when present, the default wav sibling otherwise. -/
def resolved_output_path (input_path : String) (output_path0 : Option String) : String :=
  match output_path0 with
  | some p => p
  | none => generate_output_path input_path none "wav"

/-- core.convert_single_file over a MediaEnv.  clip0 is the state of
current_clip on entry (always false in sequential use).  The branches
follow the source line by line: validation, output-path generation,
directory creation, overwrite warning, clip opening, audio-track
check, parameter merging, the coarse progress callbacks guarded by
the presence of a callback, the encoder call, the unconditional close
and the output verification; every raised exception lands in the
handler that logs, closes current_clip when set and returns False. -/
def convert_single_file (env : MediaEnv) (clip0 : Bool) (input_path : String)
    (output_path0 : Option String) (audio_params : Option Dict)
    (hasCallback : Bool) : SingleOutcome :=
  if ¬ env.inputExists then
    ⟨false, [Event.errNotFound input_path], clip0⟩
  else if ¬ validate_file_extension input_path then
    ⟨false, [Event.errUnsupportedFormat input_path], clip0⟩
  else
    let output_path := resolved_output_path input_path output_path0
    if ¬ env.createDirOk then
      ⟨false, [Event.errOutputDir output_path], clip0⟩
    else
      let t1 := [Event.logInfoStart input_path output_path] ++
        (if env.outputPreexists then [Event.warnOverwrite output_path] else [])
      if ¬ env.openOk then
        ⟨false, t1 ++ [Event.errException input_path] ++
          (if clip0 then [Event.closeClip] else []), false⟩
      else
        let t2 := t1 ++ [Event.openClip input_path]
        if ¬ env.hasAudio then
          ⟨false, t2 ++ [Event.errNoAudio input_path, Event.closeClip], false⟩
        else
          match write_params audio_params hasCallback with
          | Except.error _ =>
            ⟨false, t2 ++ [Event.errException input_path, Event.closeClip], false⟩
          | Except.ok params =>
            let d := durationOrZero env.duration
            let t3 := t2 ++
              (if hasCallback then [Event.progress "converting" 0 d] else [])
            let t4 := t3 ++ [Event.transcode output_path params]
            if ¬ env.writeOk then
              ⟨false, t4 ++ [Event.errException input_path, Event.closeClip], false⟩
            else
              let t5 := t4 ++
                (if hasCallback then [Event.progress "completed" d d] else [])
              let t6 := t5 ++ [Event.closeClip]
              if env.outAfterExists ∧ env.outAfterSize > 0 then
                ⟨true, t6 ++ [Event.logInfoDone output_path], false⟩
              else
                ⟨false, t6 ++ [Event.errBadOutput output_path], false⟩

/-- core.stop_conversion: close the current clip when one is open,
leaving current_clip empty; nothing otherwise. -/
def stop_conversion (clip : Bool) : Bool × List Event :=
  if clip then (false, [Event.closeClip]) else (false, [])

/-- Environment of one convert_batch call: whether the input
directory exists, the walked tree underneath it, and the per-file
media environment for the conversion at each 1-based index. -/
structure BatchEnv where
  dirExists : Bool
  tree : List String
  fenv : Nat → MediaEnv

/-- Result of one convert_batch call. -/
structure BatchOutcome where
  successCount : Nat
  totalCount : Nat
  trace : List Event
  clip : Bool

/-- The per-file loop body of core.convert_batch, lines 248 to 292:
a processing event, the output-path computation (re-rooting the
relative path when an output directory is given), the single-file
conversion (always handed the wrapper callback the code builds), a
completed event, and the success-count update. -/
def convert_batch_loop (fenv : Nat → MediaEnv) (input_dir : String)
    (output_dir : Option String) (audio_params : Option Dict) (hasSink : Bool)
    (total : Nat) : Bool → Nat → List String → Nat × List Event × Bool
  | clip, _, [] => (0, [], clip)
  | clip, i, f :: rest =>
    let evProc := if hasSink then [Event.batchProgress "processing" i total] else []
    let outp :=
      match output_dir with
      | some od =>
        if od ≠ "" then
          let rel := osRelpath f input_dir
          generate_output_path rel (some (osJoin od (osDirname rel))) "wav"
        else generate_output_path f none "wav"
      | none => generate_output_path f none "wav"
    let r := convert_single_file (fenv i) clip f (some outp) audio_params true
    let evDone := if hasSink then [Event.batchProgress "completed" i total] else []
    let next := convert_batch_loop fenv input_dir output_dir audio_params hasSink
      total r.clip (i + 1) rest
    ((if r.ok then 1 else 0) + next.1, evProc ++ r.trace ++ evDone ++ next.2.1, next.2.2)

/-- core.convert_batch: empty outcome when the directory is missing
or no supported file is found, otherwise the sequential loop over the
discovered files followed by the finished event. -/
def convert_batch (benv : BatchEnv) (clip0 : Bool) (input_dir : String)
    (output_dir : Option String) (audio_params : Option Dict)
    (hasSink : Bool) : BatchOutcome :=
  if ¬ benv.dirExists then ⟨0, 0, [], clip0⟩
  else
    let video_files := get_video_files_from_directory benv.dirExists benv.tree
    if video_files = [] then ⟨0, 0, [], clip0⟩
    else
      let total := video_files.length
      let r := convert_batch_loop benv.fenv input_dir output_dir audio_params
        hasSink total clip0 1 video_files
      let evFin := if hasSink then [Event.batchProgress "finished" total total] else []
      ⟨r.1, total, r.2.1 ++ evFin, r.2.2⟩

/-- Number of handle-opening events in a trace. -/
def countOpen (tr : List Event) : Nat :=
  tr.countP (fun e => match e with | Event.openClip _ => true | _ => false)

/-- Number of handle-closing events in a trace. -/
def countClose (tr : List Event) : Nat :=
  tr.countP (fun e => match e with | Event.closeClip => true | _ => false)

/-- Number of encoder invocations in a trace. -/
def countTranscode (tr : List Event) : Nat :=
  tr.countP (fun e => match e with | Event.transcode _ _ => true | _ => false)

/-- Number of batch progress events with a given phase tag. -/
def countBatchPhase (ph : String) (tr : List Event) : Nat :=
  tr.countP (fun e => match e with
    | Event.batchProgress p _ _ => p == ph
    | _ => false)

/-- The per-file progress and encoder events of a trace, in order. -/
def watchedEvents (tr : List Event) : List Event :=
  tr.filter (fun e => match e with
    | Event.progress _ _ _ => true
    | Event.transcode _ _ => true
    | _ => false)

/-- Number of per-file progress callback invocations in a trace. -/
def countProgress (tr : List Event) : Nat :=
  tr.countP (fun e => match e with | Event.progress _ _ _ => true | _ => false)

/-- The caller keys that can influence the encoder keyword set: the
whitelist plus the specially translated channels key. -/
def relevant_keys (kv : String × Val) : Bool :=
  supported_params.contains kv.1 || kv.1 == "channels"

/-- The ffmpeg argument list the caller supplied, empty when absent. -/
def callerFfmpegArgs (ap : Dict) : List String :=
  match dictLookup ap "ffmpeg_params" with
  | some (Val.vlist l) => l
  | _ => []

/-- A caller dict is well typed when its ffmpeg_params entry, if any,
is a list (anything else makes the Python extend call raise). -/
def ffTyped (ap : Dict) : Prop :=
  ∀ v, dictLookup ap "ffmpeg_params" = some v → ∃ l, v = Val.vlist l

/-- The keys of a dict in order. -/
def dictKeys (d : Dict) : List String :=
  d.map Prod.fst

/-- The ffmpeg channel-remap arguments implied by a channels value:
only the integers 1 and 2 produce a remap instruction. -/
def channelArgs (cv : Val) : List String :=
  match cv with
  | Val.vint 1 => ["-ac", "1"]
  | Val.vint 2 => ["-ac", "2"]
  | _ => []

instance : IsTotal String pathLe :=
  ⟨fun a b => le_total a.data b.data⟩

instance : IsTrans String pathLe :=
  ⟨fun _ _ _ hab hbc => le_trans hab hbc⟩

/-- A media environment in which everything succeeds: the input
exists, directories can be created, the clip opens with an audio
track and a duration of 10 seconds, the encoder succeeds and the
destination comes out present and non-empty. -/
def goodEnv : MediaEnv :=
  ⟨true, true, false, true, true, some 10, true, true, 44100⟩

/-- Batch scenario with three discovered files in which the encoder
fails on the second file only. -/
def benvMidFail : BatchEnv :=
  ⟨true, ["d/a.mp4", "d/b.mp4", "d/c.mp4"],
    fun i => if i = 2 then { goodEnv with writeOk := false } else goodEnv⟩

/-- Batch scenario with three discovered files in which a stop
request arrives while the first file is being encoded: closing the
in-flight handle makes that encoder call fail. -/
def benvStopAtFirst : BatchEnv :=
  ⟨true, ["d/a.mp4", "d/b.mp4", "d/c.mp4"],
    fun i => if i = 1 then { goodEnv with writeOk := false } else goodEnv⟩

/-- A caller parameter dict with one whitelisted key, one junk key
and a mono channel request. -/
def sampleParams : Dict :=
  [("bitrate", Val.vstr "192k"), ("junk", Val.vint 7), ("channels", Val.vint 1)]

set_option maxHeartbeats 1600000

lemma convert_single_clip_eq (env : MediaEnv) (input_path : String)
    (output_path0 : Option String) (audio_params : Option Dict) (hasCallback : Bool) :
    (convert_single_file env false input_path output_path0 audio_params hasCallback).clip =
      false := by
  simp only [convert_single_file]
  repeat' split
  all_goals rfl

/-- C1: every exit path of convert_single_file closes the handle it
opened exactly once and leaves current_clip empty: starting from an
empty current_clip, the returned state is empty, at most one open
event occurs in the trace (so never two handles at once), and the
number of close events equals the number of open events. -/
theorem convert_single_file_handle_discipline (env : MediaEnv) (input_path : String)
    (output_path0 : Option String) (audio_params : Option Dict) (hasCallback : Bool) :
    (convert_single_file env false input_path output_path0 audio_params hasCallback).clip
        = false ∧
    countOpen
        (convert_single_file env false input_path output_path0 audio_params hasCallback).trace
        ≤ 1 ∧
    countClose
        (convert_single_file env false input_path output_path0 audio_params hasCallback).trace =
      countOpen
        (convert_single_file env false input_path output_path0 audio_params hasCallback).trace := by
  refine ⟨convert_single_clip_eq env input_path output_path0 audio_params hasCallback, ?_, ?_⟩
  all_goals
    simp only [convert_single_file]
    repeat' split
    all_goals simp_all [countOpen, countClose, List.countP_append, List.countP_cons]

/-- C2: when the opened clip has no audio track, convert_single_file
returns a failed result, logs the distinct no-audio-track condition,
closes the handle, and never invokes the transcoder. -/
theorem convert_single_file_no_audio (env : MediaEnv) (input_path : String)
    (output_path0 : Option String) (audio_params : Option Dict) (hasCallback : Bool)
    (hIE : env.inputExists = true) (hV : validate_file_extension input_path = true)
    (hD : env.createDirOk = true) (hO : env.openOk = true) (hA : env.hasAudio = false) :
    (convert_single_file env false input_path output_path0 audio_params hasCallback).ok
        = false ∧
    Event.errNoAudio input_path ∈
      (convert_single_file env false input_path output_path0 audio_params hasCallback).trace ∧
    Event.closeClip ∈
      (convert_single_file env false input_path output_path0 audio_params hasCallback).trace ∧
    countTranscode
      (convert_single_file env false input_path output_path0 audio_params hasCallback).trace
        = 0 ∧
    (convert_single_file env false input_path output_path0 audio_params hasCallback).clip
        = false := by
  cases hP : env.outputPreexists <;>
    simp [convert_single_file, hIE, hV, hD, hO, hA, hP, countTranscode]

/-- C2 witness: a concrete run on a source without an audio track. -/
theorem convert_single_file_no_audio_witness :
    ({ goodEnv with hasAudio := false } : MediaEnv).inputExists = true ∧
    validate_file_extension "a.mp4" = true ∧
    ((convert_single_file { goodEnv with hasAudio := false } false "a.mp4" none none
        true).ok = false ∧
      Event.errNoAudio "a.mp4" ∈
        (convert_single_file { goodEnv with hasAudio := false } false "a.mp4" none none
          true).trace ∧
      Event.closeClip ∈
        (convert_single_file { goodEnv with hasAudio := false } false "a.mp4" none none
          true).trace ∧
      countTranscode
        (convert_single_file { goodEnv with hasAudio := false } false "a.mp4" none none
          true).trace = 0 ∧
      (convert_single_file { goodEnv with hasAudio := false } false "a.mp4" none none
        true).clip = false) :=
  ⟨by decide, by decide,
    convert_single_file_no_audio { goodEnv with hasAudio := false } "a.mp4" none none true
      (by decide) (by decide) (by decide) (by decide) (by decide)⟩

/-- C3: when the encoder call returns without error, the result is a
success exactly when the destination file exists with non-zero size;
a missing or empty destination yields a failed result. -/
theorem convert_single_file_verifies_output (env : MediaEnv) (input_path : String)
    (output_path0 : Option String) (audio_params : Option Dict) (hasCallback : Bool)
    (params : Dict)
    (hIE : env.inputExists = true) (hV : validate_file_extension input_path = true)
    (hD : env.createDirOk = true) (hO : env.openOk = true) (hA : env.hasAudio = true)
    (hp : write_params audio_params hasCallback = Except.ok params)
    (hW : env.writeOk = true) :
    ((convert_single_file env false input_path output_path0 audio_params hasCallback).ok
        = true ↔
      (env.outAfterExists = true ∧ 0 < env.outAfterSize)) ∧
    (env.outAfterExists = false ∨ env.outAfterSize = 0 →
      (convert_single_file env false input_path output_path0 audio_params
        hasCallback).ok = false) := by
  constructor
  · by_cases hver : env.outAfterExists = true ∧ 0 < env.outAfterSize
    · simp [convert_single_file, hIE, hV, hD, hO, hA, hW, hp, hver]
    · simp [convert_single_file, hIE, hV, hD, hO, hA, hW, hp, hver]
  · intro hbad
    by_cases hver : env.outAfterExists = true ∧ 0 < env.outAfterSize
    · exfalso
      rcases hbad with h | h <;> simp [h] at hver
    · simp [convert_single_file, hIE, hV, hD, hO, hA, hW, hp, hver]

/-- C3 witness: a concrete run in which the encoder reports success
but leaves a zero-byte file, and the result is marked failed. -/
theorem convert_single_file_verifies_output_witness :
    write_params none true = Except.ok
      [("codec", Val.vstr "pcm_s16le"), ("logger", Val.vnone)] ∧
    (((convert_single_file { goodEnv with outAfterSize := 0 } false "a.mp4" none none
          true).ok = true ↔
        (({ goodEnv with outAfterSize := 0 } : MediaEnv).outAfterExists = true ∧
          0 < ({ goodEnv with outAfterSize := 0 } : MediaEnv).outAfterSize)) ∧
      (({ goodEnv with outAfterSize := 0 } : MediaEnv).outAfterExists = false ∨
          ({ goodEnv with outAfterSize := 0 } : MediaEnv).outAfterSize = 0 →
        (convert_single_file { goodEnv with outAfterSize := 0 } false "a.mp4" none none
          true).ok = false)) :=
  ⟨by rfl,
    convert_single_file_verifies_output { goodEnv with outAfterSize := 0 } "a.mp4" none
      none true [("codec", Val.vstr "pcm_s16le"), ("logger", Val.vnone)]
      (by decide) (by decide) (by decide) (by decide) (by decide) (by rfl) (by decide)⟩

lemma pathLe_le {a b : String} (h : pathLe a b) : a ≤ b :=
  String.le_iff_toList_le.mpr h

/-- C4: file discovery returns exactly the files of the tree whose
lowercased extension is in the supported set, sorted lexicographically
by full path; a missing directory gives an empty sequence, and the
function is deterministic, so two runs on an unchanged tree agree. -/
theorem get_video_files_from_directory_spec :
    (∀ tree, get_video_files_from_directory false tree = []) ∧
    (∀ tree, (get_video_files_from_directory true tree).Perm
        (tree.filter validate_file_extension)) ∧
    (∀ tree, (get_video_files_from_directory true tree).Sorted (· ≤ ·)) ∧
    (∀ tree f, f ∈ get_video_files_from_directory true tree ↔
        (f ∈ tree ∧ validate_file_extension f = true)) ∧
    (∀ f, validate_file_extension f = true ↔
        asciiLower (pathSuffix f) ∈ SUPPORTED_VIDEO_FORMATS) ∧
    (∀ dirExists tree, get_video_files_from_directory dirExists tree =
        get_video_files_from_directory dirExists tree) := by
  refine ⟨fun tree => by simp [get_video_files_from_directory], ?_, ?_, ?_, ?_,
    fun _ _ => rfl⟩
  · intro tree
    simpa [get_video_files_from_directory] using
      List.perm_insertionSort pathLe (tree.filter validate_file_extension)
  · intro tree
    simp only [get_video_files_from_directory, if_pos rfl]
    exact (List.sorted_insertionSort pathLe
      (tree.filter validate_file_extension)).imp (fun h => pathLe_le h)
  · intro tree f
    simp [get_video_files_from_directory, List.mem_insertionSort, List.mem_filter]
  · intro f
    simp [validate_file_extension, List.elem_iff]

lemma headIsSlash_filename (stem f : String) :
    headIsSlash (stem ++ "." ++ f) = headIsSlash (stem ++ ".") := by
  unfold headIsSlash
  have h1 : (stem ++ "." ++ f).data = stem.data ++ '.' :: f.data := by
    simp [String.data_append]
  have h2 : (stem ++ ".").data = stem.data ++ ['.'] := by
    simp [String.data_append]
  rw [h1, h2]
  cases stem.data <;> simp

lemma osJoin_filename (a stem f : String) :
    osJoin a (stem ++ "." ++ f) =
      (if headIsSlash (stem ++ ".") then stem
       else if a = "" ∨ lastIsSlash a = true then a ++ stem
       else a ++ "/" ++ stem) ++ "." ++ f := by
  unfold osJoin
  rw [headIsSlash_filename]
  split
  · simp [String.append_assoc]
  · split
    · simp [String.append_assoc]
    · simp [String.append_assoc]

/-- C5: output-path resolution is a pure deterministic function; the
resolved path is a fixed base followed by a dot and the format, so
changing only the format changes only the extension; and on the
concrete scenario, clip.mov with no output directory resolves to
clip.wav next to the source. -/
theorem generate_output_path_spec :
    generate_output_path "clip.mov" none "wav" = "./clip.wav" ∧
    (∀ src dir, ∃ p, ∀ f, generate_output_path src dir f = p ++ "." ++ f) ∧
    (∀ src dir f, generate_output_path src dir f = generate_output_path src dir f) := by
  refine ⟨by decide, ?_, fun _ _ _ => rfl⟩
  intro src dir
  have key : ∀ a : String, ∃ p, ∀ f, osJoin a (pathStem src ++ "." ++ f) = p ++ "." ++ f :=
    fun a => ⟨_, fun f => osJoin_filename a (pathStem src) f⟩
  match dir with
  | none => simpa [generate_output_path] using key (pathParent src)
  | some d =>
    by_cases hd : d = ""
    · simpa [generate_output_path, hd] using key (pathParent src)
    · simpa [generate_output_path, hd] using key d

/-- C6 counterexample: a fully successful conversion run with no
caller-supplied progress sink invokes the transcoder once but emits
no progress event at all, contradicting the claim that the two coarse
events are emitted even without a sink (the code guards both
emissions behind the presence of the callback and enables the
transcoder builtin progress bar instead). -/
theorem no_sink_no_progress_events :
    (convert_single_file goodEnv false "a.mp4" none none false).ok = true ∧
    countTranscode (convert_single_file goodEnv false "a.mp4" none none false).trace = 1 ∧
    countProgress (convert_single_file goodEnv false "a.mp4" none none false).trace = 0 := by
  decide

/-- C6 (amended): when a progress callback is supplied, a successful
run emits exactly one converting event at time 0 carrying the known
duration (0 if unknown) before the transcoder invocation and one
completed event at the final duration after it; with no callback no
progress event is emitted. -/
theorem coarse_progress_events (env : MediaEnv) (input_path : String)
    (output_path0 : Option String) (audio_params : Option Dict) (params : Dict)
    (hIE : env.inputExists = true) (hV : validate_file_extension input_path = true)
    (hD : env.createDirOk = true) (hO : env.openOk = true) (hA : env.hasAudio = true)
    (hp : write_params audio_params true = Except.ok params)
    (hW : env.writeOk = true) :
    watchedEvents (convert_single_file env false input_path output_path0 audio_params
        true).trace =
      [Event.progress "converting" 0 (durationOrZero env.duration),
       Event.transcode (resolved_output_path input_path output_path0) params,
       Event.progress "completed" (durationOrZero env.duration)
         (durationOrZero env.duration)] := by
  cases hP : env.outputPreexists <;>
    by_cases hver : env.outAfterExists = true ∧ 0 < env.outAfterSize <;>
      simp [convert_single_file, hIE, hV, hD, hO, hA, hW, hp, hP, hver, watchedEvents]

/-- C6 witness: the concrete successful run with a callback emits the
converting event, the transcoder call and the completed event in
order. -/
theorem coarse_progress_events_witness :
    write_params none true = Except.ok
      [("codec", Val.vstr "pcm_s16le"), ("logger", Val.vnone)] ∧
    watchedEvents (convert_single_file goodEnv false "a.mp4" none none true).trace =
      [Event.progress "converting" 0 (durationOrZero goodEnv.duration),
       Event.transcode (resolved_output_path "a.mp4" none)
         [("codec", Val.vstr "pcm_s16le"), ("logger", Val.vnone)],
       Event.progress "completed" (durationOrZero goodEnv.duration)
         (durationOrZero goodEnv.duration)] :=
  ⟨by rfl,
    coarse_progress_events goodEnv "a.mp4" none none
      [("codec", Val.vstr "pcm_s16le"), ("logger", Val.vnone)]
      (by decide) (by decide) (by decide) (by decide) (by decide) (by rfl) (by decide)⟩

lemma countBatchPhase_append (ph : String) (a b : List Event) :
    countBatchPhase ph (a ++ b) = countBatchPhase ph a + countBatchPhase ph b :=
  List.countP_append _ a b

lemma countBatchPhase_single (ph : String) (env : MediaEnv) (clip0 : Bool)
    (input_path : String) (output_path0 : Option String) (audio_params : Option Dict)
    (hasCallback : Bool) :
    countBatchPhase ph
      (convert_single_file env clip0 input_path output_path0 audio_params
        hasCallback).trace = 0 := by
  simp only [convert_single_file]
  repeat' split
  all_goals simp [countBatchPhase, List.countP_append, List.countP_cons]

lemma single_fails_of_writeOk_false (env : MediaEnv) (clip0 : Bool) (input_path : String)
    (output_path0 : Option String) (audio_params : Option Dict) (hasCallback : Bool)
    (h : env.writeOk = false) :
    (convert_single_file env clip0 input_path output_path0 audio_params
      hasCallback).ok = false := by
  simp only [convert_single_file]
  repeat' split
  all_goals simp_all

lemma convert_batch_loop_spec (fenv : Nat → MediaEnv) (input_dir : String)
    (od : Option String) (ap : Option Dict) (sink : Bool) (total : Nat) :
    ∀ (files : List String) (i : Nat),
      (convert_batch_loop fenv input_dir od ap sink total false i files).2.2 = false ∧
      (convert_batch_loop fenv input_dir od ap sink total false i files).1 ≤
        files.length ∧
      (sink = true → countBatchPhase "processing"
        (convert_batch_loop fenv input_dir od ap sink total false i files).2.1 =
        files.length) := by
  intro files
  induction files with
  | nil =>
    intro i
    simp [convert_batch_loop, countBatchPhase]
  | cons f rest ih =>
    intro i
    simp only [convert_batch_loop, convert_single_clip_eq]
    refine ⟨(ih (i + 1)).1, ?_, ?_⟩
    · have hb := (ih (i + 1)).2.1
      split <;> simp <;> omega
    · intro hs
      subst hs
      have hc := (ih (i + 1)).2.2 rfl
      rw [countBatchPhase_append, countBatchPhase_append, countBatchPhase_append,
        countBatchPhase_single, hc]
      simp [countBatchPhase]
      omega

lemma batch_total_eq (benv : BatchEnv) (input_dir : String) (od : Option String)
    (ap : Option Dict) (sink : Bool) :
    (convert_batch benv false input_dir od ap sink).totalCount =
      (get_video_files_from_directory benv.dirExists benv.tree).length := by
  cases hd : benv.dirExists
  · simp [convert_batch, hd, get_video_files_from_directory]
  · by_cases hv : get_video_files_from_directory true benv.tree = []
    · simp [convert_batch, hd, hv]
    · simp [convert_batch, hd, hv]

lemma batch_success_le (benv : BatchEnv) (input_dir : String) (od : Option String)
    (ap : Option Dict) (sink : Bool) :
    (convert_batch benv false input_dir od ap sink).successCount ≤
      (convert_batch benv false input_dir od ap sink).totalCount := by
  cases hd : benv.dirExists
  · simp [convert_batch, hd]
  · by_cases hv : get_video_files_from_directory true benv.tree = []
    · simp [convert_batch, hd, hv]
    · have hl := (convert_batch_loop_spec benv.fenv input_dir od ap sink
        (get_video_files_from_directory true benv.tree).length
        (get_video_files_from_directory true benv.tree) 1).2.1
      simp [convert_batch, hd, hv]
      exact hl

lemma batch_processing_count (benv : BatchEnv) (input_dir : String) (od : Option String)
    (ap : Option Dict) :
    countBatchPhase "processing"
        (convert_batch benv false input_dir od ap true).trace =
      (convert_batch benv false input_dir od ap true).totalCount := by
  cases hd : benv.dirExists
  · simp [convert_batch, hd, countBatchPhase]
  · by_cases hv : get_video_files_from_directory true benv.tree = []
    · simp [convert_batch, hd, hv, countBatchPhase]
    · have hl := (convert_batch_loop_spec benv.fenv input_dir od ap true
        (get_video_files_from_directory true benv.tree).length
        (get_video_files_from_directory true benv.tree) 1).2.2 rfl
      simp [convert_batch, hd, hv, countBatchPhase, List.countP_append] at hl ⊢
      simpa using hl

/-- C7: a batch never aborts on a per-file failure: the success count
never exceeds the total, the total equals the number of discovered
files (files failing validation included), every discovered file gets
a processing event, and in the concrete scenario where file 2 of 3
fails the batch still processes file 3 and returns 2 of 3. -/
theorem convert_batch_spec (benv : BatchEnv) (input_dir : String) (od : Option String)
    (ap : Option Dict) (sink : Bool) :
    (convert_batch benv false input_dir od ap sink).successCount ≤
      (convert_batch benv false input_dir od ap sink).totalCount ∧
    (convert_batch benv false input_dir od ap sink).totalCount =
      (get_video_files_from_directory benv.dirExists benv.tree).length ∧
    (sink = true → countBatchPhase "processing"
        (convert_batch benv false input_dir od ap sink).trace =
      (convert_batch benv false input_dir od ap sink).totalCount) ∧
    (convert_batch benvMidFail false "d" none none true).successCount = 2 ∧
    (convert_batch benvMidFail false "d" none none true).totalCount = 3 ∧
    countBatchPhase "processing"
      (convert_batch benvMidFail false "d" none none true).trace = 3 := by
  refine ⟨batch_success_le benv input_dir od ap sink,
    batch_total_eq benv input_dir od ap sink, ?_, by decide, by decide, by decide⟩
  intro hs
  subst hs
  exact batch_processing_count benv input_dir od ap

/-- C7 witness: the concrete three-file batch with a failure on the
second file. -/
theorem convert_batch_spec_witness :
    (convert_batch benvMidFail false "d" none none true).successCount ≤
      (convert_batch benvMidFail false "d" none none true).totalCount ∧
    countBatchPhase "processing"
        (convert_batch benvMidFail false "d" none none true).trace =
      (convert_batch benvMidFail false "d" none none true).totalCount :=
  ⟨(convert_batch_spec benvMidFail "d" none none true).1,
    (convert_batch_spec benvMidFail "d" none none true).2.2.1 rfl⟩

/-- C8 counterexample: with a stop request arriving while file 1 of 3
is encoding (which closes the in-flight handle and fails that file),
the batch loop still schedules and converts files 2 and 3: three
processing events are emitted, not at most one, and the two remaining
files succeed.  The loop consults no stop flag. -/
theorem batch_continues_after_stop :
    countBatchPhase "processing"
      (convert_batch benvStopAtFirst false "d" none none true).trace = 3 ∧
    ¬ countBatchPhase "processing"
        (convert_batch benvStopAtFirst false "d" none none true).trace ≤ 1 ∧
    (convert_batch benvStopAtFirst false "d" none none true).successCount = 2 := by
  decide

/-- C8 (amended): a stop request releases the currently open handle,
which makes the in-flight encode fail, so that file yields a failed
result; but the batch loop consults no stop flag and still emits a
processing event for every discovered file. -/
theorem stop_request_scope :
    (∀ b, stop_conversion b = (false, if b then [Event.closeClip] else [])) ∧
    (∀ (env : MediaEnv) (clip0 : Bool) (input_path : String)
        (output_path0 : Option String) (audio_params : Option Dict)
        (hasCallback : Bool), env.writeOk = false →
      (convert_single_file env clip0 input_path output_path0 audio_params
        hasCallback).ok = false) ∧
    (∀ (benv : BatchEnv) (input_dir : String) (od : Option String) (ap : Option Dict),
      countBatchPhase "processing"
          (convert_batch benv false input_dir od ap true).trace =
        (convert_batch benv false input_dir od ap true).totalCount) := by
  refine ⟨fun b => ?_, ?_, fun benv input_dir od ap => batch_processing_count benv input_dir od ap⟩
  · cases b <;> simp [stop_conversion]
  · intro env clip0 input_path output_path0 audio_params hasCallback h
    exact single_fails_of_writeOk_false env clip0 input_path output_path0 audio_params
      hasCallback h

/-- C8 witness: the amended statement applied to the concrete
stop-at-file-1 scenario. -/
theorem stop_request_scope_witness :
    stop_conversion true = (false, [Event.closeClip]) ∧
    (convert_single_file (benvStopAtFirst.fenv 1) false "d/a.mp4" none none true).ok
        = false ∧
    countBatchPhase "processing"
        (convert_batch benvStopAtFirst false "d" none none true).trace =
      (convert_batch benvStopAtFirst false "d" none none true).totalCount :=
  ⟨by simpa using stop_request_scope.1 true,
    stop_request_scope.2.1 (benvStopAtFirst.fenv 1) false "d/a.mp4" none none true
      (by decide),
    stop_request_scope.2.2 benvStopAtFirst "d" none none⟩

lemma single_ok_iff (env : MediaEnv) (clip0 : Bool) (input_path : String)
    (output_path0 : Option String) (audio_params : Option Dict) (hasCallback : Bool) :
    (convert_single_file env clip0 input_path output_path0 audio_params hasCallback).ok =
      (env.inputExists && validate_file_extension input_path && env.createDirOk &&
       env.openOk && env.hasAudio && (write_params audio_params hasCallback).isOk &&
       env.writeOk && env.outAfterExists && decide (0 < env.outAfterSize)) := by
  simp only [convert_single_file]
  repeat' split
  all_goals simp_all [Except.isOk, Except.toBool]

lemma single_transcode_count (env : MediaEnv) (clip0 : Bool) (input_path : String)
    (output_path0 : Option String) (audio_params : Option Dict) (hasCallback : Bool) :
    countTranscode
        (convert_single_file env clip0 input_path output_path0 audio_params
          hasCallback).trace =
      (if env.inputExists && validate_file_extension input_path && env.createDirOk &&
          env.openOk && env.hasAudio && (write_params audio_params hasCallback).isOk
        then 1 else 0) := by
  simp only [convert_single_file]
  repeat' split
  all_goals simp_all [countTranscode, List.countP_append, List.countP_cons,
    Except.isOk, Except.toBool]

/-- C9: the conversion result and the transcoder invocation are
independent of whether the destination file already exists — the core
consults no overwrite flag and never refuses or skips a file for this
reason — and when the destination does pre-exist on a run that passes
validation, a warning is logged and the run proceeds. -/
theorem overwrite_is_unconditional (env : MediaEnv) (b1 b2 : Bool) (input_path : String)
    (output_path0 : Option String) (audio_params : Option Dict) (hasCallback : Bool) :
    ((convert_single_file { env with outputPreexists := b1 } false input_path
        output_path0 audio_params hasCallback).ok =
      (convert_single_file { env with outputPreexists := b2 } false input_path
        output_path0 audio_params hasCallback).ok) ∧
    (countTranscode (convert_single_file { env with outputPreexists := b1 } false
        input_path output_path0 audio_params hasCallback).trace =
      countTranscode (convert_single_file { env with outputPreexists := b2 } false
        input_path output_path0 audio_params hasCallback).trace) ∧
    (env.inputExists = true → validate_file_extension input_path = true →
      env.createDirOk = true →
      Event.warnOverwrite (resolved_output_path input_path output_path0) ∈
        (convert_single_file { env with outputPreexists := true } false input_path
          output_path0 audio_params hasCallback).trace) := by
  refine ⟨?_, ?_, ?_⟩
  · rw [single_ok_iff, single_ok_iff]
  · rw [single_transcode_count, single_transcode_count]
  · intro hIE hV hD
    simp only [convert_single_file]
    repeat' split
    all_goals simp_all

/-- C9 witness: a concrete run whose destination pre-exists proceeds,
invokes the transcoder, and logs the overwrite warning. -/
theorem overwrite_is_unconditional_witness :
    ((convert_single_file { goodEnv with outputPreexists := true } false "a.mp4" none
        none true).ok =
      (convert_single_file { goodEnv with outputPreexists := false } false "a.mp4" none
        none true).ok) ∧
    goodEnv.inputExists = true ∧
    Event.warnOverwrite (resolved_output_path "a.mp4" none) ∈
      (convert_single_file { goodEnv with outputPreexists := true } false "a.mp4" none
        none true).trace :=
  ⟨(overwrite_is_unconditional goodEnv true false "a.mp4" none none true).1,
    by decide,
    (overwrite_is_unconditional goodEnv true false "a.mp4" none none true).2.2
      (by decide) (by decide) (by decide)⟩


lemma lookup_filter (p : String × Val → Bool) (k : String)
    (hp : ∀ v, p (k, v) = true) (l : Dict) :
    List.lookup k (l.filter p) = List.lookup k l := by
  induction l with
  | nil => rfl
  | cons kv t ih =>
    obtain ⟨a, b⟩ := kv
    by_cases hk : k = a
    · subst hk
      simp [List.filter_cons, hp b, List.lookup]
    · have hbk : (k == a) = false := beq_eq_false_iff_ne.mpr hk
      cases hpb : p (a, b) <;> simp [List.filter_cons, hpb, List.lookup, hbk, ih]

lemma lookup_none_of_not_mem (k : String) (l : Dict) (h : k ∉ dictKeys l) :
    List.lookup k l = none := by
  induction l with
  | nil => rfl
  | cons kv t ih =>
    obtain ⟨a, b⟩ := kv
    rw [show dictKeys ((a, b) :: t) = a :: dictKeys t from rfl] at h
    simp only [List.mem_cons, not_or] at h
    have hbk : (k == a) = false := beq_eq_false_iff_ne.mpr h.1
    simp only [List.lookup, hbk]
    exact ih h.2

lemma lookup_append (k : String) (l1 l2 : Dict) :
    List.lookup k (l1 ++ l2) =
      (match List.lookup k l1 with
       | some v => some v
       | none => List.lookup k l2) := by
  induction l1 with
  | nil => simp [List.lookup]
  | cons kv t ih =>
    obtain ⟨a, b⟩ := kv
    cases hk : (k == a) <;> simp [List.lookup, hk, ih]

lemma lookup_map_replace (k : String) (v : Val) (d : Dict)
    (h : (List.lookup k d).isSome = true) :
    List.lookup k (d.map (fun kv => if kv.1 = k then (k, v) else kv)) = some v := by
  induction d with
  | nil => simp [List.lookup] at h
  | cons kv t ih =>
    obtain ⟨a, b⟩ := kv
    by_cases hk : a = k
    · subst hk
      simp only [List.map_cons]
      split
      · simp [List.lookup]
      · simp_all
    · have h2 : (k == a) = false := beq_eq_false_iff_ne.mpr (fun he => hk he.symm)
      simp only [List.map_cons]
      split
      · rename_i hcond
        exact absurd (by simpa using hcond) hk
      · simp only [List.lookup, h2] at h ⊢
        exact ih h

lemma lookup_map_replace_ne (k k' : String) (v : Val) (d : Dict) (hne : k' ≠ k) :
    List.lookup k' (d.map (fun kv => if kv.1 = k then (k, v) else kv)) =
      List.lookup k' d := by
  induction d with
  | nil => rfl
  | cons kv t ih =>
    obtain ⟨a, b⟩ := kv
    by_cases hk : a = k
    · subst hk
      have h2 : (k' == a) = false := beq_eq_false_iff_ne.mpr hne
      simp only [List.map_cons]
      split
      · simp only [List.lookup, h2]
        exact ih
      · simp_all
    · simp only [List.map_cons]
      split
      · rename_i hcond
        exact absurd (by simpa using hcond) hk
      · cases hka : (k' == a) <;> simp only [List.lookup, hka]
        exact ih

lemma dictSet_lookup_self (d : Dict) (k : String) (v : Val) :
    dictLookup (dictSet d k v) k = some v := by
  unfold dictSet dictHasKey dictLookup
  by_cases h : (List.lookup k d).isSome
  · simp only [h, if_pos rfl]
    exact lookup_map_replace k v d h
  · simp only [h, Bool.false_eq_true, if_false]
    rw [lookup_append]
    have hnone : List.lookup k d = none := by
      cases hl : List.lookup k d
      · rfl
      · simp [hl] at h
    simp [hnone, List.lookup]

lemma dictSet_lookup_ne (d : Dict) (k : String) (v : Val) (k' : String) (hne : k' ≠ k) :
    dictLookup (dictSet d k v) k' = dictLookup d k' := by
  unfold dictSet dictHasKey dictLookup
  by_cases h : (List.lookup k d).isSome
  · simp only [h, if_pos rfl]
    exact lookup_map_replace_ne k k' v d hne
  · simp only [h, Bool.false_eq_true, if_false]
    rw [lookup_append]
    cases hl : List.lookup k' d
    · simp [List.lookup, beq_eq_false_iff_ne.mpr hne]
    · simp

lemma dictUpdate_lookup (u : Dict) :
    ∀ (hu : (dictKeys u).Nodup) (d : Dict) (k : String),
      dictLookup (dictUpdate d u) k =
        (match dictLookup u k with
         | some v => some v
         | none => dictLookup d k) := by
  induction u with
  | nil =>
    intro hu d k
    simp [dictUpdate, dictLookup, List.lookup]
  | cons kv t ih =>
    intro hu d k
    obtain ⟨a, b⟩ := kv
    rw [show dictKeys ((a, b) :: t) = a :: dictKeys t from rfl, List.nodup_cons] at hu
    have hstep : dictUpdate d ((a, b) :: t) = dictUpdate (dictSet d a b) t := rfl
    rw [hstep, ih hu.2]
    simp only [dictLookup]
    by_cases hk : k = a
    · subst hk
      have htn : List.lookup k t = none := lookup_none_of_not_mem k t hu.1
      simp only [List.lookup, beq_self_eq_true, htn]
      exact dictSet_lookup_self d k b
    · have hbk : (k == a) = false := beq_eq_false_iff_ne.mpr hk
      cases hl : List.lookup k t <;> simp only [List.lookup, hl, hbk]
      exact dictSet_lookup_ne d a b k hk

lemma filtered_keys_nodup (ap : Dict) (hn : (dictKeys ap).Nodup)
    (p : String × Val → Bool) : (dictKeys (ap.filter p)).Nodup := by
  have hsub : List.Sublist (dictKeys (ap.filter p)) (dictKeys ap) :=
    (List.filter_sublist ap).map Prod.fst
  exact List.Nodup.sublist hsub hn

lemma d1_ff (ap : Dict) (hn : (dictKeys ap).Nodup) :
    dictLookup (dictUpdate [("codec", Val.vstr "pcm_s16le"), ("logger", Val.vnone)]
      (ap.filter (fun kv => supported_params.contains kv.1))) "ffmpeg_params" =
    dictLookup ap "ffmpeg_params" := by
  rw [dictUpdate_lookup _ (filtered_keys_nodup ap hn _)]
  have hp : ∀ v : Val,
      (fun kv : String × Val => supported_params.contains kv.1) ("ffmpeg_params", v)
        = true := fun _ => rfl
  have hf : dictLookup (ap.filter (fun kv => supported_params.contains kv.1))
      "ffmpeg_params" = dictLookup ap "ffmpeg_params" :=
    lookup_filter _ _ hp ap
  rw [hf]
  cases hap : dictLookup ap "ffmpeg_params"
  · decide
  · rfl

lemma write_params_channels (ap : Dict) (cb : Bool) (hn : (dictKeys ap).Nodup)
    (hff : ffTyped ap) (cv : Val) (hcv : dictLookup ap "channels" = some cv) :
    ∃ d, write_params (some ap) cb = Except.ok d ∧
      dictLookup d "ffmpeg_params" =
        some (Val.vlist (callerFfmpegArgs ap ++ channelArgs cv)) := by
  have hne : ap ≠ [] := by
    intro h
    rw [h] at hcv
    simp [dictLookup, List.lookup] at hcv
  have hch : dictHasKey ap "channels" = true := by
    simp [dictHasKey, hcv]
  have hd1ff := d1_ff ap hn
  set d1 := dictUpdate [("codec", Val.vstr "pcm_s16le"), ("logger", Val.vnone)]
    (ap.filter (fun kv => supported_params.contains kv.1)) with hd1def
  set d2 := if dictHasKey d1 "ffmpeg_params" then d1
            else d1 ++ [("ffmpeg_params", Val.vlist [])] with hd2def
  have hd2ff : dictLookup d2 "ffmpeg_params" = some (Val.vlist (callerFfmpegArgs ap)) := by
    rcases hap : dictLookup ap "ffmpeg_params" with _ | fv
    · have h1 : dictHasKey d1 "ffmpeg_params" = false := by
        simp [dictHasKey, hd1ff, hap]
      rw [hd2def, if_neg (by simp [h1])]
      unfold dictLookup
      rw [lookup_append]
      have hnn : List.lookup "ffmpeg_params" d1 = none := by
        have h2 := hd1ff
        rw [hap] at h2
        exact h2
      rw [hnn]
      simp [List.lookup, callerFfmpegArgs, hap]
    · obtain ⟨l, rfl⟩ := hff fv hap
      have h1 : dictHasKey d1 "ffmpeg_params" = true := by
        simp [dictHasKey, hd1ff, hap]
      rw [hd2def, if_pos (by simp [h1])]
      rw [hd1ff, hap]
      simp [callerFfmpegArgs, hap]
  have hex : ∃ m, (match dictLookup ap "channels" with
      | some (Val.vint 1) => extendFfmpegParams d2 ["-ac", "1"]
      | some (Val.vint 2) => extendFfmpegParams d2 ["-ac", "2"]
      | _ => Except.ok d2) = Except.ok m ∧
      dictLookup m "ffmpeg_params" =
        some (Val.vlist (callerFfmpegArgs ap ++ channelArgs cv)) := by
    rw [hcv]
    rcases cv with n | s | l | _
    · by_cases h1 : n = 1
      · subst h1
        refine ⟨dictSet d2 "ffmpeg_params"
            (Val.vlist (callerFfmpegArgs ap ++ ["-ac", "1"])), ?_, ?_⟩
        · show extendFfmpegParams d2 ["-ac", "1"] = _
          unfold extendFfmpegParams
          rw [hd2ff]
        · rw [show channelArgs (Val.vint 1) = ["-ac", "1"] from rfl]
          exact dictSet_lookup_self d2 "ffmpeg_params" _
      · by_cases h2 : n = 2
        · subst h2
          refine ⟨dictSet d2 "ffmpeg_params"
              (Val.vlist (callerFfmpegArgs ap ++ ["-ac", "2"])), ?_, ?_⟩
          · show extendFfmpegParams d2 ["-ac", "2"] = _
            unfold extendFfmpegParams
            rw [hd2ff]
          · rw [show channelArgs (Val.vint 2) = ["-ac", "2"] from rfl]
            exact dictSet_lookup_self d2 "ffmpeg_params" _
        · refine ⟨d2, ?_, ?_⟩
          · split
            · rename_i heq
              exact absurd (by injection heq with h; injection h) h1
            · rename_i heq
              exact absurd (by injection heq with h; injection h) h2
            · rfl
          · rw [show channelArgs (Val.vint n) = [] from by
              unfold channelArgs
              split
              · rename_i heq
                exact absurd (by injection heq) h1
              · rename_i heq
                exact absurd (by injection heq) h2
              · rfl]
            simpa using hd2ff
    · exact ⟨d2, rfl, by simpa [channelArgs] using hd2ff⟩
    · exact ⟨d2, rfl, by simpa [channelArgs] using hd2ff⟩
    · exact ⟨d2, rfl, by simpa [channelArgs] using hd2ff⟩
  obtain ⟨m, hm, hmff⟩ := hex
  refine ⟨if cb then dictSet m "logger" Val.vnone else dictSet m "logger" (Val.vstr "bar"),
    ?_, ?_⟩
  · simp only [write_params, if_neg hne, if_pos hch]
    rw [← hd1def, ← hd2def, hm]
    cases cb <;> simp
  · cases cb
    · rw [if_neg (by simp), dictSet_lookup_ne m "logger" _ "ffmpeg_params" (by decide)]
      exact hmff
    · rw [if_pos rfl, dictSet_lookup_ne m "logger" _ "ffmpeg_params" (by decide)]
      exact hmff

lemma write_params_no_channels (ap : Dict) (cb : Bool)
    (hch : dictHasKey ap "channels" = false) :
    ∃ d, write_params (some ap) cb = Except.ok d := by
  by_cases hne : ap = []
  · subst hne
    cases cb
    · exact ⟨_, rfl⟩
    · exact ⟨_, rfl⟩
  · cases cb
    · refine ⟨dictSet (dictUpdate [("codec", Val.vstr "pcm_s16le"), ("logger", Val.vnone)]
        (ap.filter (fun kv => supported_params.contains kv.1))) "logger"
        (Val.vstr "bar"), ?_⟩
      simp only [write_params, if_neg hne, hch, Bool.false_eq_true, if_false]
    · refine ⟨dictSet (dictUpdate [("codec", Val.vstr "pcm_s16le"), ("logger", Val.vnone)]
        (ap.filter (fun kv => supported_params.contains kv.1))) "logger"
        Val.vnone, ?_⟩
      simp only [write_params, if_neg hne, hch, Bool.false_eq_true, if_false, if_true]

lemma lookup_some_mem {k : String} {v : Val} {l : Dict}
    (h : List.lookup k l = some v) : (k, v) ∈ l := by
  induction l with
  | nil => simp [List.lookup] at h
  | cons kv t ih =>
    obtain ⟨a, b⟩ := kv
    cases hk : (k == a)
    · simp only [List.lookup, hk] at h
      exact List.mem_cons_of_mem _ (ih h)
    · have hka : k = a := eq_of_beq hk
      subst hka
      simp only [List.lookup, beq_self_eq_true] at h
      injection h with hbv
      subst hbv
      exact List.mem_cons_self _ _

lemma write_params_filter_relevant (ap : Dict) (cb : Bool) :
    write_params (some ap) cb =
      write_params (some (ap.filter relevant_keys)) cb := by
  by_cases hne : ap = []
  · subst hne
    rfl
  · have hsupp : (ap.filter relevant_keys).filter
        (fun kv => supported_params.contains kv.1) =
        ap.filter (fun kv => supported_params.contains kv.1) := by
      rw [List.filter_filter]
      apply List.filter_congr
      intro kv _
      cases h : supported_params.contains kv.1
      · simp [relevant_keys, h]
      · simp [relevant_keys, h]
        exact Or.inl (List.elem_iff.mp h)
    have hchan : dictLookup (ap.filter relevant_keys) "channels" =
        dictLookup ap "channels" := by
      have hp : ∀ v : Val, relevant_keys ("channels", v) = true := fun _ => rfl
      exact lookup_filter _ _ hp ap
    by_cases h2 : ap.filter relevant_keys = []
    · have hchnone : dictLookup ap "channels" = none := by
        cases hc : dictLookup ap "channels" with
        | none => rfl
        | some v =>
          exfalso
          have hmem : ("channels", v) ∈ ap := lookup_some_mem hc
          have hmf : ("channels", v) ∈ ap.filter relevant_keys :=
            List.mem_filter.mpr ⟨hmem, rfl⟩
          rw [h2] at hmf
          simp at hmf
      have hHK : dictHasKey ap "channels" = false := by
        simp [dictHasKey, hchnone]
      have hsuppnil : ap.filter (fun kv => supported_params.contains kv.1) = [] := by
        rw [← hsupp, h2]
        rfl
      rw [h2]
      simp only [write_params, if_neg hne, hHK, Bool.false_eq_true, if_false, hsuppnil]
      cases cb <;> rfl
    · simp only [write_params, if_neg hne, if_neg h2]
      rw [hsupp, hchan]
      rw [show dictHasKey (ap.filter relevant_keys) "channels" =
          dictHasKey ap "channels" from by simp [dictHasKey, hchan]]

lemma channelArgs_nil_of_ne (cv : Val) (h1 : cv ≠ Val.vint 1) (h2 : cv ≠ Val.vint 2) :
    channelArgs cv = [] := by
  unfold channelArgs
  split
  · exact absurd rfl h1
  · exact absurd rfl h2
  · rfl

/-- C10: of a caller-supplied parameter dict, only whitelisted keys
influence the encoder keyword set (all other keys are silently
discarded, with no error for a well-formed dict); a channels value of
1 or 2 is translated into a channel-remap instruction appended to
ffmpeg_params, and any other channels value adds no remap
instruction. -/
theorem write_params_whitelist :
    (∀ (ap : Dict) (cb : Bool),
      write_params (some ap) cb = write_params (some (ap.filter relevant_keys)) cb) ∧
    (∀ (ap : Dict) (cb : Bool), (dictKeys ap).Nodup → ffTyped ap →
      ∃ d, write_params (some ap) cb = Except.ok d) ∧
    (∀ (ap : Dict) (cb : Bool), (dictKeys ap).Nodup → ffTyped ap →
      dictLookup ap "channels" = some (Val.vint 1) →
      ∃ d, write_params (some ap) cb = Except.ok d ∧
        dictLookup d "ffmpeg_params" =
          some (Val.vlist (callerFfmpegArgs ap ++ ["-ac", "1"]))) ∧
    (∀ (ap : Dict) (cb : Bool), (dictKeys ap).Nodup → ffTyped ap →
      dictLookup ap "channels" = some (Val.vint 2) →
      ∃ d, write_params (some ap) cb = Except.ok d ∧
        dictLookup d "ffmpeg_params" =
          some (Val.vlist (callerFfmpegArgs ap ++ ["-ac", "2"]))) ∧
    (∀ (ap : Dict) (cb : Bool) (cv : Val), (dictKeys ap).Nodup → ffTyped ap →
      dictLookup ap "channels" = some cv → cv ≠ Val.vint 1 → cv ≠ Val.vint 2 →
      ∃ d, write_params (some ap) cb = Except.ok d ∧
        dictLookup d "ffmpeg_params" = some (Val.vlist (callerFfmpegArgs ap))) := by
  refine ⟨write_params_filter_relevant, ?_, ?_, ?_, ?_⟩
  · intro ap cb hn hff
    by_cases hch : dictHasKey ap "channels" = true
    · obtain ⟨cv, hcv⟩ : ∃ cv, dictLookup ap "channels" = some cv := by
        cases hc : dictLookup ap "channels"
        · simp [dictHasKey, hc] at hch
        · exact ⟨_, rfl⟩
      obtain ⟨d, hd, _⟩ := write_params_channels ap cb hn hff cv hcv
      exact ⟨d, hd⟩
    · exact write_params_no_channels ap cb (by simpa using hch)
  · intro ap cb hn hff hcv
    obtain ⟨d, hd, hdff⟩ := write_params_channels ap cb hn hff (Val.vint 1) hcv
    exact ⟨d, hd, by simpa [channelArgs] using hdff⟩
  · intro ap cb hn hff hcv
    obtain ⟨d, hd, hdff⟩ := write_params_channels ap cb hn hff (Val.vint 2) hcv
    exact ⟨d, hd, by simpa [channelArgs] using hdff⟩
  · intro ap cb cv hn hff hcv h1 h2
    obtain ⟨d, hd, hdff⟩ := write_params_channels ap cb hn hff cv hcv
    rw [channelArgs_nil_of_ne cv h1 h2] at hdff
    exact ⟨d, hd, by simpa using hdff⟩

/-- C10 witness: the sample dict with a junk key, a whitelisted key
and a mono channel request. -/
theorem write_params_whitelist_witness :
    (dictKeys sampleParams).Nodup ∧ ffTyped sampleParams ∧
    dictLookup sampleParams "channels" = some (Val.vint 1) ∧
    write_params (some sampleParams) true =
      write_params (some (sampleParams.filter relevant_keys)) true ∧
    (∃ d, write_params (some sampleParams) true = Except.ok d ∧
      dictLookup d "ffmpeg_params" =
        some (Val.vlist (callerFfmpegArgs sampleParams ++ ["-ac", "1"]))) := by
  have hn : (dictKeys sampleParams).Nodup := by decide
  have hff : ffTyped sampleParams := by
    intro v hv
    rw [show dictLookup sampleParams "ffmpeg_params" = none from rfl] at hv
    exact Option.noConfusion hv
  exact ⟨hn, hff, rfl, write_params_whitelist.1 sampleParams true,
    write_params_whitelist.2.2.1 sampleParams true hn hff rfl⟩

end Mp4ToWav
